import Mathlib

/-!
# Course board input layer: a shallow embedding

Lean models of the input-event layer of the course board application:
the press-state tracker (`on_input_event` in `app/main.py`), the Arduino
serial-line decoder (`app/arduino_manager.py`), the GPIO debounce
handlers (`app/gpio_manager.py`), the Arduino-to-pin mapping of the
input manager (`app/input_manager.py`), the websocket fanout
(`ws_broadcast` in `app/main.py`) and the storage helpers
(`app/storage.py`), together with theorems settling behavioural claims
about them.
-/

namespace CourseBoard

/-- A course record (`app/models.py`, class `Course`).  Only the fields
consulted by the input layer are modelled; the presentation-only string
fields (title, room, description, overview, image path) influence no
transition and are omitted. -/
structure Course where
  course_id : String
  button_gpio_pin : Int
deriving Repr, DecidableEq

/-- A normalized input event (`app/input_manager.py`, class `InputEvent`).
The wall-clock `timestamp` attached at emission time is consulted by no
transition and is not modelled. -/
structure InputEvent where
  pin : Int
  kind : String
  source : String
deriving Repr, DecidableEq

/-- One record appended to the presses log by `JSONStorage.log_press`
(`app/storage.py`, lines 136-159).  The `timestamp` field produced there
by `datetime.now().isoformat()` is not modelled. -/
structure AuditEntry where
  pin : Int
  course_id : Option String
  event_type : String
deriving Repr, DecidableEq

/-- A websocket notification payload, as built in `app/main.py`:
`course_added` carries the course record (represented here by its id)
and `pressed_update` the sorted list of currently pressed pins. -/
inductive Notif where
  | history_cleared
  | course_added (course_id : String)
  | pressed_update (pressed_pins : List Int)
deriving Repr, DecidableEq

/-- Tracker state: the module-level globals `pressed_pins` and
`history_course_ids` of `app/main.py`. -/
structure TrackerState where
  pressed_pins : Finset Int
  history_course_ids : List String
deriving DecidableEq

/-- The state at process start: nothing pressed, empty history. -/
def initState : TrackerState := ⟨∅, []⟩

/-- `sorted(list(pressed_pins))`, the payload of a `pressed_update`. -/
def sortedPins (s : Finset Int) : List Int := s.sort (· ≤ ·)

/-- The press-state tracker transition `on_input_event` (`app/main.py`,
lines 85-122).  Inputs: the course lookup `course_by_pin.get` (wrapped
by `_course_for_pin`), the global `clear_pin`, the incoming event and
the current tracker state.  Output: the new state, the entries passed
to `storage.log_press`, and the notifications passed to `ws_broadcast`,
in emission order.  The Python guard `clear_pin is not None and
pin == clear_pin` is the option equality `clear_pin = some pin`. -/
def on_input_event (course_by_pin : Int → Option Course) (clear_pin : Option Int)
    (event : InputEvent) (st : TrackerState) :
    TrackerState × List AuditEntry × List Notif :=
  if event.kind = "down" then
    let pressed := insert event.pin st.pressed_pins
    if clear_pin = some event.pin then
      (⟨pressed, []⟩,
       [⟨event.pin, none, "clear_down_" ++ event.source⟩],
       [.history_cleared, .pressed_update (sortedPins pressed)])
    else
      match course_by_pin event.pin with
      | some course =>
          (⟨pressed, st.history_course_ids ++ [course.course_id]⟩,
           [⟨event.pin, some course.course_id, "button_down_" ++ event.source⟩],
           [.course_added course.course_id, .pressed_update (sortedPins pressed)])
      | none =>
          (⟨pressed, st.history_course_ids⟩,
           [⟨event.pin, none, "button_down_" ++ event.source⟩],
           [.pressed_update (sortedPins pressed)])
  else if event.kind = "up" then
    let pressed := st.pressed_pins.erase event.pin
    (⟨pressed, st.history_course_ids⟩,
     [⟨event.pin, none, "button_up_" ++ event.source⟩],
     [.pressed_update (sortedPins pressed)])
  else
    (st, [], [])

/-- Delivering a finite sequence of events to `on_input_event`,
threading the tracker state and concatenating the audit entries and
notifications in order. -/
def processEvents (course_by_pin : Int → Option Course) (clear_pin : Option Int) :
    TrackerState → List InputEvent → TrackerState × List AuditEntry × List Notif
  | st, [] => (st, [], [])
  | st, e :: rest =>
      let r := on_input_event course_by_pin clear_pin e st
      let r2 := processEvents course_by_pin clear_pin r.1 rest
      (r2.1, r.2.1 ++ r2.2.1, r.2.2 ++ r2.2.2)

/-- The kind of the last event delivered for `pin` in a sequence, if
any event for `pin` occurs at all. -/
def lastKindFor (events : List InputEvent) (pin : Int) : Option String :=
  events.foldl (fun acc e => if e.pin = pin then some e.kind else acc) none

theorem mem_pressed_on_input_event (cbp : Int → Option Course) (cp : Option Int)
    (e : InputEvent) (st : TrackerState) (pin : Int)
    (hk : e.kind = "down" ∨ e.kind = "up") :
    pin ∈ (on_input_event cbp cp e st).1.pressed_pins ↔
      (if e.pin = pin then e.kind = "down" else pin ∈ st.pressed_pins) := by
  rcases hk with hk | hk
  · have hpr : (on_input_event cbp cp e st).1.pressed_pins =
        insert e.pin st.pressed_pins := by
      simp only [on_input_event, hk, if_pos rfl]
      by_cases hc : cp = some e.pin
      · simp [hc]
      · cases hco : cbp e.pin <;> simp [hc, hco]
    rw [hpr]
    by_cases hp : e.pin = pin
    · subst hp
      simp [hk, Finset.mem_insert]
    · have hp2 : pin ≠ e.pin := fun h => hp h.symm
      simp [Finset.mem_insert, hp, hp2]
  · have hpr : (on_input_event cbp cp e st).1.pressed_pins =
        st.pressed_pins.erase e.pin := by
      simp only [on_input_event, hk]
      simp
    rw [hpr]
    by_cases hp : e.pin = pin
    · subst hp
      simp [hk, Finset.mem_erase]
    · have hp2 : pin ≠ e.pin := fun h => hp h.symm
      simp [Finset.mem_erase, hp, hp2]

theorem lastKindFor_foldl_from (pin : Int) (rest : List InputEvent) (a : Option String) :
    rest.foldl (fun acc e => if e.pin = pin then some e.kind else acc) a =
      match lastKindFor rest pin with
      | some k => some k
      | none => a := by
  induction rest generalizing a with
  | nil => simp [lastKindFor]
  | cons e rest ih =>
      simp only [lastKindFor, List.foldl_cons]
      rw [ih (if e.pin = pin then some e.kind else a),
        ih (if e.pin = pin then some e.kind else none)]
      by_cases hp : e.pin = pin <;>
        cases hfold : lastKindFor rest pin <;>
          simp [hp, hfold]

theorem pressed_after_processEvents (cbp : Int → Option Course) (cp : Option Int)
    (events : List InputEvent) (st : TrackerState) (pin : Int)
    (h : ∀ e ∈ events, e.kind = "down" ∨ e.kind = "up") :
    pin ∈ (processEvents cbp cp st events).1.pressed_pins ↔
      (match lastKindFor events pin with
       | some k => k = "down"
       | none => pin ∈ st.pressed_pins) := by
  induction events generalizing st with
  | nil => simp [processEvents, lastKindFor]
  | cons e rest ih =>
      have he := h e (List.mem_cons_self e rest)
      have hrest : ∀ x ∈ rest, x.kind = "down" ∨ x.kind = "up" :=
        fun x hx => h x (List.mem_cons_of_mem e hx)
      have hstep := mem_pressed_on_input_event cbp cp e st pin he
      have hlast : lastKindFor (e :: rest) pin =
          match lastKindFor rest pin with
          | some k => some k
          | none => if e.pin = pin then some e.kind else none := by
        simp only [lastKindFor, List.foldl_cons]
        exact lastKindFor_foldl_from pin rest _
      rw [show processEvents cbp cp st (e :: rest) =
            (let r := on_input_event cbp cp e st
             let r2 := processEvents cbp cp r.1 rest
             (r2.1, r.2.1 ++ r2.2.1, r.2.2 ++ r2.2.2)) from rfl]
      simp only []
      rw [ih _ hrest, hlast]
      cases hlk : lastKindFor rest pin with
      | some k => simp
      | none =>
          simp only []
          rw [hstep]
          by_cases hp : e.pin = pin <;> simp [hp]

/-- C1.  After any finite sequence of down/up input events starting from
the initial state, a pin is in `pressed_pins` iff the last event
delivered for that pin had kind `"down"`; a pin with no events is
absent. -/
theorem pressed_iff_last_down (cbp : Int → Option Course) (cp : Option Int)
    (events : List InputEvent)
    (h : ∀ e ∈ events, e.kind = "down" ∨ e.kind = "up") (pin : Int) :
    pin ∈ (processEvents cbp cp initState events).1.pressed_pins ↔
      lastKindFor events pin = some "down" := by
  rw [pressed_after_processEvents cbp cp events initState pin h]
  cases hlk : lastKindFor events pin with
  | some k => simp [hlk]
  | none => simp [initState]

/-- C1 witness: the invariant evaluated on a concrete event sequence. -/
theorem pressed_iff_last_down_witness :
    (3 : Int) ∈ (processEvents (fun _ => none) (some 17) initState
        [⟨5, "down", "gpio"⟩, ⟨5, "up", "gpio"⟩, ⟨3, "down", "arduino"⟩]).1.pressed_pins ↔
      lastKindFor [⟨5, "down", "gpio"⟩, ⟨5, "up", "gpio"⟩, ⟨3, "down", "arduino"⟩] 3 =
        some "down" :=
  pressed_iff_last_down (fun _ => none) (some 17) _ (by decide) 3

/-- C5.  An event on a pin with no mapped course that is not the clear
pin: a down adds the pin to `pressed_pins`, logs a bare button-down
entry with no course id, leaves the history unchanged and emits only a
`pressed_update`; an up removes the pin, logs a bare button-up entry and
likewise never touches the history. -/
theorem unmapped_pin_safety (cbp : Int → Option Course) (cp : Option Int)
    (pin : Int) (src : String) (st : TrackerState)
    (hco : cbp pin = none) (hcl : cp ≠ some pin) :
    on_input_event cbp cp ⟨pin, "down", src⟩ st =
      (⟨insert pin st.pressed_pins, st.history_course_ids⟩,
       [⟨pin, none, "button_down_" ++ src⟩],
       [.pressed_update (sortedPins (insert pin st.pressed_pins))]) ∧
    on_input_event cbp cp ⟨pin, "up", src⟩ st =
      (⟨st.pressed_pins.erase pin, st.history_course_ids⟩,
       [⟨pin, none, "button_up_" ++ src⟩],
       [.pressed_update (sortedPins (st.pressed_pins.erase pin))]) := by
  constructor
  · simp [on_input_event, hcl, hco]
  · simp [on_input_event]

/-- C5 witness: the unmapped-pin transitions at a concrete input. -/
theorem unmapped_pin_safety_witness :
    on_input_event (fun _ => none) (some 17) ⟨5, "down", "gpio"⟩ initState =
      (⟨insert 5 initState.pressed_pins, initState.history_course_ids⟩,
       [⟨5, none, "button_down_" ++ "gpio"⟩],
       [.pressed_update (sortedPins (insert 5 initState.pressed_pins))]) ∧
    on_input_event (fun _ => none) (some 17) ⟨5, "up", "gpio"⟩ initState =
      (⟨initState.pressed_pins.erase 5, initState.history_course_ids⟩,
       [⟨5, none, "button_up_" ++ "gpio"⟩],
       [.pressed_update (sortedPins (initState.pressed_pins.erase 5))]) :=
  unmapped_pin_safety (fun _ => none) (some 17) 5 "gpio" initState rfl (by decide)

/-- The `POST /api/clear` route handler `clear_history` (`app/main.py`,
lines 212-216): it resets the history and broadcasts `history_cleared`;
it calls `storage.log_press` nowhere, sends no `pressed_update`, and
leaves `pressed_pins` untouched. -/
def clear_history (st : TrackerState) : TrackerState × List AuditEntry × List Notif :=
  (⟨st.pressed_pins, []⟩, [], [.history_cleared])

/-- C6 counterexample: from the same state, the explicit clear and a
clear-pin down edge produce different audit-log effects (no entry
versus a `clear_down_gpio` entry) and different notification lists
(`pressed_update` is missing from the explicit clear). -/
theorem clear_equiv_counterexample :
    (clear_history ⟨∅, ["c1"]⟩).2.1 ≠
      (on_input_event (fun _ => none) (some 17) ⟨17, "down", "gpio"⟩ ⟨∅, ["c1"]⟩).2.1 ∧
    (clear_history ⟨∅, ["c1"]⟩).2.2 ≠
      (on_input_event (fun _ => none) (some 17) ⟨17, "down", "gpio"⟩ ⟨∅, ["c1"]⟩).2.2 := by
  decide

/-- C6 amended: both operations leave the history empty and both emit
`history_cleared`; but the explicit clear writes no audit entry, emits
no `pressed_update`, and leaves `pressed_pins` unchanged, whereas the
clear-pin down edge logs a `clear_down_<source>` entry, emits a
`pressed_update`, and adds the clear pin to `pressed_pins`. -/
theorem clear_equiv_amended (cbp : Int → Option Course) (cp : Option Int)
    (pin : Int) (src : String) (st : TrackerState) (hcp : cp = some pin) :
    (clear_history st).1.history_course_ids = [] ∧
    (on_input_event cbp cp ⟨pin, "down", src⟩ st).1.history_course_ids = [] ∧
    (clear_history st).2.2 = [.history_cleared] ∧
    (on_input_event cbp cp ⟨pin, "down", src⟩ st).2.2 =
      [.history_cleared, .pressed_update (sortedPins (insert pin st.pressed_pins))] ∧
    (clear_history st).2.1 = [] ∧
    (on_input_event cbp cp ⟨pin, "down", src⟩ st).2.1 =
      [⟨pin, none, "clear_down_" ++ src⟩] ∧
    (clear_history st).1.pressed_pins = st.pressed_pins ∧
    (on_input_event cbp cp ⟨pin, "down", src⟩ st).1.pressed_pins =
      insert pin st.pressed_pins := by
  subst hcp
  simp [clear_history, on_input_event]

/-- C6 witness: the amended comparison at a concrete state. -/
theorem clear_equiv_amended_witness :
    (clear_history ⟨∅, ["c1"]⟩).1.history_course_ids = [] ∧
    (on_input_event (fun _ => none) (some 17) ⟨17, "down", "gpio"⟩
      ⟨∅, ["c1"]⟩).1.history_course_ids = [] ∧
    (clear_history ⟨∅, ["c1"]⟩).2.2 = [.history_cleared] ∧
    (on_input_event (fun _ => none) (some 17) ⟨17, "down", "gpio"⟩ ⟨∅, ["c1"]⟩).2.2 =
      [.history_cleared,
       .pressed_update (sortedPins (insert 17 (⟨∅, ["c1"]⟩ : TrackerState).pressed_pins))] ∧
    (clear_history ⟨∅, ["c1"]⟩).2.1 = [] ∧
    (on_input_event (fun _ => none) (some 17) ⟨17, "down", "gpio"⟩ ⟨∅, ["c1"]⟩).2.1 =
      [⟨17, none, "clear_down_" ++ "gpio"⟩] ∧
    (clear_history ⟨∅, ["c1"]⟩).1.pressed_pins = (⟨∅, ["c1"]⟩ : TrackerState).pressed_pins ∧
    (on_input_event (fun _ => none) (some 17) ⟨17, "down", "gpio"⟩
      ⟨∅, ["c1"]⟩).1.pressed_pins =
      insert 17 (⟨∅, ["c1"]⟩ : TrackerState).pressed_pins :=
  clear_equiv_amended (fun _ => none) (some 17) 17 "gpio" ⟨∅, ["c1"]⟩ rfl

/-- C7 counterexample: a down event from the GPIO source on an
unmapped, non-clear pin is logged with `event_type` equal to
`"button_down_gpio"`, which is none of the three bare tags
`clear_down`, `button_down`, `button_up`. -/
theorem audit_action_counterexample :
    (on_input_event (fun _ => none) none ⟨5, "down", "gpio"⟩ initState).2.1 =
      [⟨5, none, "button_down_gpio"⟩] ∧
    ¬ ("button_down_gpio" = "clear_down" ∨ "button_down_gpio" = "button_down" ∨
        "button_down_gpio" = "button_up") := by
  decide

/-- C7 amended: every audit entry written by the tracker carries the
event's integer pin, an optional course id, and an `event_type` equal
to one of the three tags `clear_down`, `button_down`, `button_up`
followed by an underscore and the event's source tag. -/
theorem audit_action_amended (cbp : Int → Option Course) (cp : Option Int)
    (ev : InputEvent) (st : TrackerState) :
    ∀ a ∈ (on_input_event cbp cp ev st).2.1,
      a.pin = ev.pin ∧
      (a.event_type = "clear_down_" ++ ev.source ∨
       a.event_type = "button_down_" ++ ev.source ∨
       a.event_type = "button_up_" ++ ev.source) := by
  intro a ha
  simp only [on_input_event] at ha
  split at ha
  · split at ha
    · simp at ha
      subst ha
      simp
    · split at ha <;>
        · simp at ha
          subst ha
          simp
  · split at ha
    · simp at ha
      subst ha
      simp
    · simp at ha

/-- C7 witness: the amended audit-record shape at a concrete event. -/
theorem audit_action_amended_witness :
    (⟨5, none, "button_down_gpio"⟩ : AuditEntry).pin = (5 : Int) ∧
    ((⟨5, none, "button_down_gpio"⟩ : AuditEntry).event_type = "clear_down_" ++ "gpio" ∨
     (⟨5, none, "button_down_gpio"⟩ : AuditEntry).event_type = "button_down_" ++ "gpio" ∨
     (⟨5, none, "button_down_gpio"⟩ : AuditEntry).event_type = "button_up_" ++ "gpio") :=
  audit_action_amended (fun _ => none) none ⟨5, "down", "gpio"⟩ initState
    ⟨5, none, "button_down_gpio"⟩ (by decide)

/-- An event decoded from the Arduino serial stream
(`app/arduino_manager.py`, class `ArduinoEvent`).  The wall-clock
`timestamp` taken from the running event loop at emission time is
consulted by no transition and is not modelled. -/
structure ArduinoEvent where
  input_id : Nat
  kind : String
deriving Repr, DecidableEq

/-- Helper for `splitOnChar`: the accumulator holds the current field
reversed. -/
def splitOnAux (sep : Char) : List Char → List Char → List (List Char)
  | [], acc => [acc.reverse]
  | c :: cs, acc =>
      if c = sep then acc.reverse :: splitOnAux sep cs []
      else splitOnAux sep cs (c :: acc)

/-- Python `message.split(":")` on the character list of the message. -/
def splitOnChar (sep : Char) (l : List Char) : List (List Char) :=
  splitOnAux sep l []

/-- Python `int(parts[1])` restricted to the nonnegative digit strings
the wire grammar uses.  Any other string raises `ValueError` in the
source, which the `except` clause turns into dropping the message; here
it is `none`, which is likewise dropped (and a negative index would in
any case fail the `0 <= input_id < 10` range check). -/
def parseDigits (l : List Char) : Option Nat :=
  if l ≠ [] ∧ l.all (fun c => c.isDigit) then
    some (l.foldl (fun n c => n * 10 + (c.toNat - 48)) 0)
  else none

/-- The `for i, char in enumerate(state_str)` loop of the `STATE:`
branch (`app/arduino_manager.py`, lines 115-128).  The stored states
and the mask characters are walked in lockstep; both have length ten
whenever the loop runs, so the source's redundant `i < 10` guard always
holds.  A differing bit updates the stored state and emits one event,
`down` for a `1` bit and `up` otherwise. -/
def bitmaskLoop (i : Nat) : List Bool → List Char → List Bool × List ArduinoEvent
  | olds, [] => (olds, [])
  | [], _ => ([], [])
  | old :: olds, c :: cs =>
      let new : Bool := (c == '1')
      let r := bitmaskLoop (i + 1) olds cs
      if new ≠ old then
        (new :: r.1, ⟨i, if new then "down" else "up"⟩ :: r.2)
      else (old :: r.1, r.2)

/-- The four characters of the Python literal `"BTN:"`. -/
def btnHeader : List Char := ['B', 'T', 'N', ':']

/-- The six characters of the Python literal `"STATE:"`. -/
def stateHeader : List Char := ['S', 'T', 'A', 'T', 'E', ':']

/-- `ArduinoManager._parse_message` (`app/arduino_manager.py`, lines
80-128) on the decoded, stripped line, represented by its character
list.  Input: the current `button_states` (a list of ten booleans,
`[False] * 10` at construction) and the message; output: the updated
`button_states` and the events handed to `on_event`, in emission order.
The `BTN:` branch demands exactly four `:`-separated fields
(`len(parts) == 4`), a numeric in-range index and a `down`/`up`
direction (lower-cased); the `STATE:` branch demands a ten-character
mask and emits only for changed bits.  Every other line is dropped
unchanged. -/
def parse_message (button_states : List Bool) (message : List Char) :
    List Bool × List ArduinoEvent :=
  if btnHeader.isPrefixOf message then
    match splitOnChar ':' message with
    | [_, p1, p2, _] =>
        match parseDigits p1 with
        | some input_id =>
            let kind := String.mk (p2.map Char.toLower)
            if input_id < 10 ∧ (kind = "down" ∨ kind = "up") then
              (button_states.set input_id (kind == "down"), [⟨input_id, kind⟩])
            else (button_states, [])
        | none => (button_states, [])
    | _ => (button_states, [])
  else if stateHeader.isPrefixOf message then
    let state_str := message.drop 6
    if state_str.length = 10 then bitmaskLoop 0 button_states state_str
    else (button_states, [])
  else (button_states, [])

theorem bitmaskLoop_id_ge (cs : List Char) :
    ∀ (olds : List Bool) (i : Nat), ∀ e ∈ (bitmaskLoop i olds cs).2, i ≤ e.input_id := by
  induction cs with
  | nil =>
      intro olds i e he
      simp [bitmaskLoop] at he
  | cons c cs ih =>
      intro olds i e he
      cases olds with
      | nil => simp [bitmaskLoop] at he
      | cons old olds =>
          simp only [bitmaskLoop] at he
          by_cases hne : (c == '1') ≠ old
          · rw [if_pos hne] at he
            rcases List.mem_cons.mp he with he | he
            · subst he
              exact le_refl i
            · exact le_trans (Nat.le_succ i) (ih olds (i + 1) e he)
          · rw [if_neg hne] at he
            exact le_trans (Nat.le_succ i) (ih olds (i + 1) e he)

theorem bitmaskLoop_filter (cs : List Char) :
    ∀ (olds : List Bool) (i j : Nat),
    (bitmaskLoop i olds cs).2.filter (fun e => e.input_id = i + j) =
      (if j < olds.length ∧ j < cs.length ∧ (cs.getD j 'x' == '1') ≠ olds.getD j false
       then [⟨i + j, if cs.getD j 'x' == '1' then "down" else "up"⟩]
       else []) := by
  induction cs with
  | nil =>
      intro olds i j
      simp [bitmaskLoop]
  | cons c cs ih =>
      intro olds i j
      cases olds with
      | nil => simp [bitmaskLoop]
      | cons old olds =>
          simp only [bitmaskLoop]
          cases j with
          | zero =>
              have htail : (bitmaskLoop (i + 1) olds cs).2.filter
                  (fun e => e.input_id = i + 0) = [] := by
                rw [List.filter_eq_nil_iff]
                intro e he
                have := bitmaskLoop_id_ge cs olds (i + 1) e he
                simp only [decide_eq_true_eq]
                omega
              by_cases hne : (c == '1') ≠ old
              · rw [if_pos hne]
                simp only [List.filter_cons]
                rw [htail]
                simp [hne]
              · rw [if_neg hne]
                rw [htail]
                simp at hne
                simp [hne]
          | succ j' =>
              have harith : i + (j' + 1) = (i + 1) + j' := by omega
              have hhead : ¬ (i = i + (j' + 1)) := by omega
              by_cases hne : (c == '1') ≠ old
              · rw [if_pos hne]
                simp only [List.filter_cons, decide_eq_true_eq]
                rw [if_neg hhead]
                rw [harith, ih olds (i + 1) j']
                simp
              · rw [if_neg hne]
                rw [harith, ih olds (i + 1) j']
                simp

theorem parse_message_state (prev : List Bool) (bits : List Char)
    (hb : bits.length = 10) :
    parse_message prev (stateHeader ++ bits) = bitmaskLoop 0 prev bits := by
  have h1 : btnHeader.isPrefixOf (stateHeader ++ bits) = false := by
    simp [btnHeader, stateHeader, List.isPrefixOf]
  have h2 : stateHeader.isPrefixOf (stateHeader ++ bits) = true := by
    rw [List.isPrefixOf_iff_prefix]
    exact List.prefix_append _ _
  have h3 : (stateHeader ++ bits).drop 6 = bits := by
    rw [show (6 : Nat) = stateHeader.length from rfl]
    exact List.drop_left _ _
  simp only [parse_message, h1, h2, h3, hb]
  simp

/-- C2.  For every ten-entry prior `button_states` and every
ten-character mask line `STATE:<bits>`: (i) per index, exactly one
event is emitted when the bit differs from the stored state (`down` for
a `1` bit, `up` for a `0` bit) and none when it does not; (ii) every
emitted event is at a changed index; (iii) the scenario: from all-false
states, `STATE:0101000000` emits exactly the down events for indices 1
and 3. -/
theorem bitmask_edge_detection (prev : List Bool) (bits : List Char)
    (hp : prev.length = 10) (hb : bits.length = 10) (j : Nat) (hj : j < 10) :
    ((parse_message prev (stateHeader ++ bits)).2.filter
        (fun e => e.input_id = j) =
      (if (bits.getD j 'x' == '1') ≠ prev.getD j false
       then [⟨j, if bits.getD j 'x' == '1' then "down" else "up"⟩]
       else [])) ∧
    (∀ e ∈ (parse_message prev (stateHeader ++ bits)).2,
       (bits.getD e.input_id 'x' == '1') ≠ prev.getD e.input_id false) ∧
    parse_message (List.replicate 10 false)
        (stateHeader ++ ['0', '1', '0', '1', '0', '0', '0', '0', '0', '0']) =
      ([false, true, false, true, false, false, false, false, false, false],
       [⟨1, "down"⟩, ⟨3, "down"⟩]) := by
  refine ⟨?_, ?_, by decide⟩
  · rw [parse_message_state prev bits hb]
    have hfil := bitmaskLoop_filter bits prev 0 j
    simp only [Nat.zero_add] at hfil
    rw [hfil]
    by_cases hc : (bits.getD j 'x' == '1') ≠ prev.getD j false
    · rw [if_pos ⟨by omega, by omega, hc⟩, if_pos hc]
    · rw [if_neg (fun h => hc h.2.2), if_neg hc]
  · intro e he
    rw [parse_message_state prev bits hb] at he
    have hfil := bitmaskLoop_filter bits prev 0 e.input_id
    simp only [Nat.zero_add] at hfil
    have hmem : e ∈ (bitmaskLoop 0 prev bits).2.filter
        (fun x => x.input_id = e.input_id) :=
      List.mem_filter.mpr ⟨he, by simp⟩
    rw [hfil] at hmem
    by_cases hcond : e.input_id < prev.length ∧ e.input_id < bits.length ∧
        (bits.getD e.input_id 'x' == '1') ≠ prev.getD e.input_id false
    · exact hcond.2.2
    · rw [if_neg hcond] at hmem
      exact absurd hmem (List.not_mem_nil e)

/-- C2 witness: the per-index characterization evaluated at index 1 of
the scenario input. -/
theorem bitmask_edge_detection_witness :
    ((parse_message (List.replicate 10 false)
        (stateHeader ++ ['0', '1', '0', '1', '0', '0', '0', '0', '0', '0'])).2.filter
        (fun e => e.input_id = 1) =
      (if (['0', '1', '0', '1', '0', '0', '0', '0', '0', '0'].getD 1 'x' == '1') ≠
          (List.replicate 10 false).getD 1 false
       then [⟨1, if ['0', '1', '0', '1', '0', '0', '0', '0', '0', '0'].getD 1 'x' == '1'
          then "down" else "up"⟩]
       else [])) ∧
    (∀ e ∈ (parse_message (List.replicate 10 false)
        (stateHeader ++ ['0', '1', '0', '1', '0', '0', '0', '0', '0', '0'])).2,
       (['0', '1', '0', '1', '0', '0', '0', '0', '0', '0'].getD e.input_id 'x' == '1') ≠
         (List.replicate 10 false).getD e.input_id false) ∧
    parse_message (List.replicate 10 false)
        (stateHeader ++ ['0', '1', '0', '1', '0', '0', '0', '0', '0', '0']) =
      ([false, true, false, true, false, false, false, false, false, false],
       [⟨1, "down"⟩, ⟨3, "down"⟩]) :=
  bitmask_edge_detection (List.replicate 10 false)
    ['0', '1', '0', '1', '0', '0', '0', '0', '0', '0'] (by decide) (by decide) 1 (by decide)

/-- C3.  The single-event grammar documented in the source's own
comment, `"BTN:1:DOWN"`, splits into three `:`-separated fields, so the
`len(parts) == 4` guard rejects it: no event is emitted and no state
changes.  Only a line with a fourth (here empty) field, such as
`"BTN:1:DOWN:"`, passes the guard and produces the documented event. -/
theorem btn_line_dropped :
    parse_message (List.replicate 10 false)
        ['B', 'T', 'N', ':', '1', ':', 'D', 'O', 'W', 'N'] =
      (List.replicate 10 false, []) ∧
    parse_message (List.replicate 10 false)
        ['B', 'T', 'N', ':', '1', ':', 'D', 'O', 'W', 'N', ':'] =
      ((List.replicate 10 false).set 1 true, [⟨1, "down"⟩]) := by
  decide

/-- A GPIO edge event (`app/gpio_manager.py`, class `GPIOEvent`). -/
structure GPIOEvent where
  gpio_pin : Int
  kind : String
deriving Repr, DecidableEq

/-- A raw edge reported by the `gpiozero` layer to the registered
callbacks: `when_pressed` consults `time.monotonic()` (the instant is
attached here), `when_released` consults no clock. -/
inductive RawSignal where
  | pressed (pin : Int) (t : ℚ)
  | released (pin : Int)
deriving Repr, DecidableEq

/-- The closure built by `GPIOManager._make_pressed_handler`
(`app/gpio_manager.py`, lines 56-64).  State: the `_last_down`
dictionary mapping a pin to the instant of its last accepted press;
`self._last_down.get(pin, 0.0)` reads an absent entry as `0.0`.  A
signal arriving less than `bounce_seconds` after that instant is
discarded; otherwise the instant is recorded and a down event is
emitted. -/
def pressedHandler (bounce : ℚ) (last_down : Int → Option ℚ) (pin : Int) (now : ℚ) :
    (Int → Option ℚ) × List GPIOEvent :=
  let last := (last_down pin).getD 0
  if now - last < bounce then (last_down, [])
  else (fun p => if p = pin then some now else last_down p, [⟨pin, "down"⟩])

/-- The closure built by `GPIOManager._make_released_handler` (lines
66-69): a released signal is never debounced and always emits an up
event, touching no state. -/
def releasedHandler (last_down : Int → Option ℚ) (pin : Int) :
    (Int → Option ℚ) × List GPIOEvent :=
  (last_down, [⟨pin, "up"⟩])

/-- One callback invocation. -/
def gpioStep (bounce : ℚ) (last_down : Int → Option ℚ) :
    RawSignal → (Int → Option ℚ) × List GPIOEvent
  | .pressed pin t => pressedHandler bounce last_down pin t
  | .released pin => releasedHandler last_down pin

/-- A sequence of callback invocations, threading `_last_down` and
concatenating the emitted events. -/
def gpioRun (bounce : ℚ) :
    (Int → Option ℚ) → List RawSignal → (Int → Option ℚ) × List GPIOEvent
  | st, [] => (st, [])
  | st, s :: rest =>
      let r := gpioStep bounce st s
      let r2 := gpioRun bounce r.1 rest
      (r2.1, r.2 ++ r2.2)

theorem gpioRun_window_drop (bounce : ℚ) (p : Int) (t0 : ℚ) (ts : List ℚ)
    (st : Int → Option ℚ) (hst : st p = some t0)
    (hwin : ∀ t ∈ ts, t - t0 < bounce) :
    gpioRun bounce st (ts.map (fun t => RawSignal.pressed p t)) = (st, []) := by
  induction ts with
  | nil => rfl
  | cons t ts ih =>
      have hdrop : gpioStep bounce st (RawSignal.pressed p t) = (st, []) := by
        simp only [gpioStep, pressedHandler, hst, Option.getD_some]
        rw [if_pos (hwin t (List.mem_cons_self t ts))]
      simp only [List.map_cons, gpioRun, hdrop]
      rw [ih (fun t ht => hwin t (List.mem_cons_of_mem _ ht))]
      simp

/-- C4.  (i) A run consisting of an accepted press on pin `p` followed
by any presses within the debounce window emits exactly one down event;
(ii) when `_last_down` holds a last accepted press at `tl`, a press at
`now` emits a down event iff at least `bounce` has elapsed since `tl`,
and is discarded inside the window; (iii) a released signal always
emits an up event, unconditionally and without touching state. -/
theorem gpio_debounce (bounce : ℚ) (st : Int → Option ℚ) (p : Int)
    (t0 : ℚ) (ts : List ℚ)
    (hacc : bounce ≤ t0 - (st p).getD 0)
    (hwin : ∀ t ∈ ts, t - t0 < bounce) :
    (gpioRun bounce st
        ((t0 :: ts).map (fun t => RawSignal.pressed p t))).2 = [⟨p, "down"⟩] ∧
    (∀ (st2 : Int → Option ℚ) (q : Int) (now tl : ℚ), st2 q = some tl →
       (((pressedHandler bounce st2 q now).2 = [⟨q, "down"⟩]) ↔ bounce ≤ now - tl) ∧
       (now - tl < bounce → (pressedHandler bounce st2 q now).2 = [])) ∧
    (∀ (st2 : Int → Option ℚ) (q : Int), releasedHandler st2 q = (st2, [⟨q, "up"⟩])) := by
  refine ⟨?_, ?_, fun st2 q => rfl⟩
  · have hstep : gpioStep bounce st (RawSignal.pressed p t0) =
        ((fun q => if q = p then some t0 else st q), [⟨p, "down"⟩]) := by
      simp only [gpioStep, pressedHandler]
      rw [if_neg (not_lt.mpr hacc)]
    simp only [List.map_cons, gpioRun, hstep]
    rw [gpioRun_window_drop bounce p t0 ts _ (if_pos rfl) hwin]
    simp
  · intro st2 q now tl hst2
    simp only [pressedHandler, hst2, Option.getD_some]
    constructor
    · constructor
      · intro hemit
        by_contra hlt
        rw [if_pos (lt_of_not_ge hlt)] at hemit
        simp at hemit
      · intro hle
        rw [if_neg (not_lt.mpr hle)]
    · intro hlt
      rw [if_pos hlt]

/-- C4 witness: a press at instant 100 followed by two presses inside
the 50 ms window yields exactly one down event. -/
theorem gpio_debounce_witness :
    (gpioRun (1 / 20) (fun _ => none)
        (((100 : ℚ) :: [10001 / 100, 5001 / 50]).map
          (fun t => RawSignal.pressed 5 t))).2 = [⟨5, "down"⟩] :=
  (gpio_debounce (1 / 20) (fun _ => none) 5 100 [10001 / 100, 5001 / 50]
    (by norm_num [Option.getD])
    (by
      intro t ht
      simp only [List.mem_cons, List.not_mem_nil, or_false] at ht
      rcases ht with rfl | rfl <;> norm_num)).1

/-- The pin-mapping file content (`app/models.py`, class `GPIOMap`). -/
structure GPIOMap where
  course_pins : List Int
  clear_pin : Int
deriving Repr, DecidableEq

/-- `JSONStorage.load_gpio_map` (`app/storage.py`, lines 16-35).  The
filesystem is abstracted as the outcome of reading the mapping file:
`none` when `gpio_map_path` does not exist, otherwise the parse
outcome of its contents.  A missing file yields the built-in default
`GPIOMap(course_pins=[], clear_pin=0)` with no error; a present file
yields whatever parsing yields, errors included. -/
def load_gpio_map (file : Option (Except String GPIOMap)) : Except String GPIOMap :=
  match file with
  | none => .ok ⟨[], 0⟩
  | some r => r

/-- The pin-layout globals published by the `startup` hook. -/
structure StartupPins where
  clear_pin : Option Int
  course_pins : List Int
deriving Repr, DecidableEq

/-- The pin-layout part of the `startup` hook (`app/main.py`, lines
124-155): load the map, publish `clear_pin` and `course_pins`, and
proceed; an exception from loading would abort startup, and nothing
else in the hook inspects the map. -/
def startupPins (file : Option (Except String GPIOMap)) : Except String StartupPins :=
  match load_gpio_map file with
  | .ok gm => .ok ⟨some gm.clear_pin, gm.course_pins⟩
  | .error e => .error e

/-- C8 counterexample: with the mapping file missing, startup does not
fail — `load_gpio_map` raises nothing and `startupPins` succeeds with
the silently assumed default layout. -/
theorem missing_map_counterexample :
    (startupPins none).isOk = true ∧ startupPins none = .ok ⟨some 0, []⟩ :=
  ⟨rfl, rfl⟩

/-- C8 amended: when the mapping file is missing, `load_gpio_map`
returns the default map (no course pins, `clear_pin` 0) instead of
raising, and startup proceeds with that assumed layout; a file whose
parse fails is the only way loading aborts startup. -/
theorem missing_map_default :
    load_gpio_map none = .ok ⟨[], 0⟩ ∧
    startupPins none = .ok ⟨some 0, []⟩ ∧
    (∀ gm : GPIOMap, startupPins (some (.ok gm)) = .ok ⟨some gm.clear_pin, gm.course_pins⟩) ∧
    (∀ e : String, startupPins (some (.error e)) = .error e) :=
  ⟨rfl, rfl, fun _ => rfl, fun _ => rfl⟩

/-- A websocket client as seen by `ws_broadcast`: an identity plus
whether `send_json` raises for it on a broadcast. -/
structure Subscriber where
  id : Nat
  fails : Bool
deriving Repr, DecidableEq

/-- `ws_broadcast` (`app/main.py`, lines 51-60) under `ws_lock`: walk
the client set attempting delivery, collecting each failing client in
`dead`, then discard every dead client from `ws_clients`.  Output: the
clients the message was delivered to and the surviving client set. -/
def ws_broadcast (clients : List Subscriber) : List Subscriber × List Subscriber :=
  let r := clients.foldl
    (fun acc ws => if ws.fails then (acc.1, acc.2 ++ [ws]) else (acc.1 ++ [ws], acc.2))
    ([], [])
  (r.1, clients.filter (fun ws => decide (ws ∉ r.2)))

/-- `ws_broadcast` touches no tracker state: `pressed_pins` and
`history_course_ids` appear nowhere in its body, recorded here by
passing the tracker state through unchanged. -/
def ws_broadcast_full (st : TrackerState) (clients : List Subscriber) :
    TrackerState × List Subscriber × List Subscriber :=
  (st, ws_broadcast clients)

theorem ws_broadcast_foldl (clients : List Subscriber) (r d : List Subscriber) :
    clients.foldl
        (fun acc ws =>
          if ws.fails then (acc.1, acc.2 ++ [ws]) else (acc.1 ++ [ws], acc.2))
        (r, d) =
      (r ++ clients.filter (fun ws => !ws.fails),
       d ++ clients.filter (fun ws => ws.fails)) := by
  induction clients generalizing r d with
  | nil => simp
  | cons ws clients ih =>
      simp only [List.foldl_cons, List.filter_cons]
      cases hws : ws.fails <;> simp [hws, ih]

theorem ws_broadcast_eq (clients : List Subscriber) :
    ws_broadcast clients =
      (clients.filter (fun ws => !ws.fails),
       clients.filter
         (fun ws => decide (ws ∉ clients.filter (fun x => x.fails)))) := by
  simp only [ws_broadcast, ws_broadcast_foldl clients [] [], List.nil_append]

/-- C9.  With exactly one failing subscriber `k` in the set: every
other subscriber still receives the broadcast, `k` does not, `k` is
removed from the set while the others remain, `k` receives nothing
from a subsequent broadcast to the surviving set, and the tracker
state is untouched. -/
theorem fanout_isolation (clients : List Subscriber) (k : Subscriber)
    (hk : k ∈ clients) (hkf : k.fails = true)
    (hothers : ∀ c ∈ clients, c ≠ k → c.fails = false) :
    (∀ c ∈ clients, c ≠ k → c ∈ (ws_broadcast clients).1) ∧
    k ∉ (ws_broadcast clients).1 ∧
    k ∉ (ws_broadcast clients).2 ∧
    (∀ c ∈ clients, c ≠ k → c ∈ (ws_broadcast clients).2) ∧
    k ∉ (ws_broadcast (ws_broadcast clients).2).1 ∧
    (∀ st : TrackerState, (ws_broadcast_full st clients).1 = st) := by
  have hrec : (ws_broadcast clients).1 = clients.filter (fun ws => !ws.fails) := by
    rw [ws_broadcast_eq]
  have hsur : (ws_broadcast clients).2 =
      clients.filter (fun ws => decide (ws ∉ clients.filter (fun x => x.fails))) := by
    rw [ws_broadcast_eq]
  refine ⟨?_, ?_, ?_, ?_, ?_, fun st => rfl⟩
  · intro c hc hne
    rw [hrec]
    exact List.mem_filter.mpr ⟨hc, by simp [hothers c hc hne]⟩
  · rw [hrec]
    intro hmem
    have := (List.mem_filter.mp hmem).2
    simp [hkf] at this
  · rw [hsur]
    intro hmem
    have := (List.mem_filter.mp hmem).2
    simp only [decide_eq_true_eq] at this
    exact this (List.mem_filter.mpr ⟨hk, by simp [hkf]⟩)
  · intro c hc hne
    rw [hsur]
    refine List.mem_filter.mpr ⟨hc, ?_⟩
    simp only [decide_eq_true_eq]
    intro hmem
    have := (List.mem_filter.mp hmem).2
    simp [hothers c hc hne] at this
  · intro hmem
    rw [ws_broadcast_eq (ws_broadcast clients).2] at hmem
    have hin := (List.mem_filter.mp hmem).1
    rw [hsur] at hin
    have := (List.mem_filter.mp hin).2
    simp only [decide_eq_true_eq] at this
    exact this (List.mem_filter.mpr ⟨hk, by simp [hkf]⟩)

/-- C9 witness: three subscribers with the middle one failing. -/
theorem fanout_isolation_witness :
    (⟨1, false⟩ : Subscriber) ∈ (ws_broadcast [⟨1, false⟩, ⟨2, true⟩, ⟨3, false⟩]).1 ∧
    (⟨2, true⟩ : Subscriber) ∉ (ws_broadcast [⟨1, false⟩, ⟨2, true⟩, ⟨3, false⟩]).1 ∧
    (⟨2, true⟩ : Subscriber) ∉ (ws_broadcast [⟨1, false⟩, ⟨2, true⟩, ⟨3, false⟩]).2 := by
  have h := fanout_isolation [⟨1, false⟩, ⟨2, true⟩, ⟨3, false⟩] ⟨2, true⟩
    (by decide) rfl (by decide)
  exact ⟨h.1 ⟨1, false⟩ (by decide) (by decide), h.2.1, h.2.2.1⟩

/-- Arduino configuration (`app/models.py`, class `ArduinoConfig`).
The serial port, baud rate and input count influence no mapping
decision and are omitted. -/
structure ArduinoConfig where
  course_inputs : List Nat
  clear_input : Option Nat
deriving Repr, DecidableEq

/-- Python truthiness of the `Optional[int]` value `self.clear_pin`:
`None` and `0` are falsy, every other integer is truthy. -/
def pyTruthy : Option Int → Bool
  | none => false
  | some n => n != 0

/-- Insertion step for `sortInts`. -/
def insertSorted (x : Int) : List Int → List Int
  | [] => [x]
  | y :: ys => if x ≤ y then x :: y :: ys else y :: insertSorted x ys

/-- `list(sorted(self.course_pins))` as insertion sort. -/
def sortInts (l : List Int) : List Int := l.foldr insertSorted []

/-- `InputManager._setup_arduino_mapping` (`app/input_manager.py`,
lines 43-56), producing `_arduino_to_gpio_map` as a lookup function.
The loop writes `map[arduino_input] = list(sorted(course_pins))[i]`
for each enumerated course input with index `i < len(course_pins)`;
then, only when `clear_input is not None` *and* `self.clear_pin` is
truthy (so neither `None` nor `0`), the clear mapping is added. -/
def setup_arduino_mapping (cfg : ArduinoConfig) (course_pins : List Int)
    (clear_pin : Option Int) : Nat → Option Int :=
  let sorted := sortInts course_pins
  let m := cfg.course_inputs.enum.foldl
    (fun (m : Nat → Option Int) p =>
      if p.1 < course_pins.length then
        (fun k => if k = p.2 then some (sorted.getD p.1 0) else m k)
      else m)
    (fun _ => none)
  match cfg.clear_input with
  | some ci => if pyTruthy clear_pin then (fun k => if k = ci then clear_pin else m k) else m
  | none => m

/-- `InputManager._on_arduino_event` (`app/input_manager.py`, lines
69-81): an event whose input id is absent from `_arduino_to_gpio_map`
is silently dropped; a mapped one is forwarded to `on_event` as an
`InputEvent` with source `"arduino"`. -/
def on_arduino_event (m : Nat → Option Int) (ev : ArduinoEvent) : List InputEvent :=
  match m ev.input_id with
  | some gpio_pin => [⟨gpio_pin, ev.kind, "arduino"⟩]
  | none => []

theorem snd_mem_of_mem_enumFrom {α : Type} :
    ∀ (l : List α) (n : Nat) (p : Nat × α), p ∈ l.enumFrom n → p.2 ∈ l := by
  intro l
  induction l with
  | nil => intro n p hp; simp [List.enumFrom] at hp
  | cons x xs ih =>
      intro n p hp
      simp only [List.enumFrom, List.mem_cons] at hp
      rcases hp with rfl | hp
      · exact List.mem_cons_self x xs
      · exact List.mem_cons_of_mem x (ih (n + 1) p hp)

theorem course_loop_not_mentioned (ci : Nat) (len : Nat) (sorted : List Int) :
    ∀ (xs : List (Nat × Nat)) (m0 : Nat → Option Int), m0 ci = none →
      (∀ p ∈ xs, p.2 ≠ ci) →
      (xs.foldl
        (fun m p =>
          if p.1 < len then
            (fun k => if k = p.2 then some (sorted.getD p.1 0) else m k)
          else m)
        m0) ci = none := by
  intro xs
  induction xs with
  | nil => intro m0 h0 _; exact h0
  | cons p xs ih =>
      intro m0 h0 hx
      simp only [List.foldl_cons]
      apply ih
      · by_cases hlen : p.1 < len
        · rw [if_pos hlen]
          show (if ci = p.2 then some (sorted.getD p.1 0) else m0 ci) = none
          rw [if_neg (fun h => (hx p (List.mem_cons_self p xs)) h.symm)]
          exact h0
        · rw [if_neg hlen]
          exact h0
      · exact fun q hq => hx q (List.mem_cons_of_mem p hq)

/-- C10.  When `clear_pin` is `None` or `0` (the default that
`load_gpio_map` produces for a missing mapping file), the truthiness
guard in `_setup_arduino_mapping` skips the clear mapping, so — as long
as the configured clear input is not also listed as a course input —
lookups of the Arduino clear input find nothing, `_on_arduino_event`
drops every clear-button event, and the tracker never sees one: the
history can never be cleared from the Arduino clear button. -/
theorem clear_input_unmapped (cfg : ArduinoConfig) (course_pins : List Int)
    (clear_pin : Option Int) (ci : Nat)
    (hclear : clear_pin = none ∨ clear_pin = some 0)
    (hci : cfg.clear_input = some ci)
    (hnot : ci ∉ cfg.course_inputs) :
    setup_arduino_mapping cfg course_pins clear_pin ci = none ∧
    (∀ kind, on_arduino_event (setup_arduino_mapping cfg course_pins clear_pin)
        ⟨ci, kind⟩ = []) ∧
    (∀ (cbp : Int → Option Course) (cp : Option Int) (st : TrackerState) (kind : String),
      processEvents cbp cp st
        (on_arduino_event (setup_arduino_mapping cfg course_pins clear_pin) ⟨ci, kind⟩) =
        (st, [], [])) := by
  have htruthy : pyTruthy clear_pin = false := by
    rcases hclear with rfl | rfl <;> rfl
  have hmap : setup_arduino_mapping cfg course_pins clear_pin ci = none := by
    simp only [setup_arduino_mapping, hci, htruthy]
    rw [if_neg (by simp)]
    apply course_loop_not_mentioned
    · rfl
    · intro p hp h
      exact hnot (h ▸ snd_mem_of_mem_enumFrom _ 0 p hp)
  refine ⟨hmap, ?_, ?_⟩
  · intro kind
    simp [on_arduino_event, hmap]
  · intro cbp cp st kind
    simp [on_arduino_event, hmap, processEvents]

/-- C10 witness: a config with clear input 9 and `clear_pin = 0`. -/
theorem clear_input_unmapped_witness :
    setup_arduino_mapping ⟨[0, 1, 2], some 9⟩ [5, 6, 7] (some 0) 9 = none ∧
    on_arduino_event (setup_arduino_mapping ⟨[0, 1, 2], some 9⟩ [5, 6, 7] (some 0))
      ⟨9, "down"⟩ = [] :=
  have h := clear_input_unmapped ⟨[0, 1, 2], some 9⟩ [5, 6, 7] (some 0) 9
    (Or.inr rfl) rfl (by decide)
  ⟨h.1, h.2.1 "down"⟩

end CourseBoard
